import Mathlib

/-!
Verification development for the prismMotion-EvolveAI repository.

Part 1: the Creator-Mode stage orchestrator (interactive, human-gated
workflow engine driving a video-generation pipeline over a WebSocket
channel).  The repository ships only the documentation of this module
(`src/backend/CREATOR_MODE_FLOW.md`, `CREATOR_MODE_SUMMARY.md`, the
Creator-Mode usage docs); the implementation file `app/creator_mode.py`
is not part of the source tree, so the state machine below is modelled
from the specification.

Part 2: the Remotion video composition (`src/remotion/src/PharmaVideo.tsx`,
`src/remotion/src/Root.tsx` and the older inline-metadata Root variant)
and the canvas node update helper (`updateNodeContent`), all translated
directly from the TypeScript sources.
-/

namespace CreatorMode

/-- Pipeline stage identifiers (spec §3 StageId; doc "Pipeline Stages"). -/
inductive StageId
  | scenes
  | script
  | visuals
  | animations
  | tts
  | render
deriving DecidableEq, Fintype

/-- The five workflow kinds (spec §3 WorkflowKind: product-ad,
mechanism-of-action, doctor-ad, social-media-clip, compliance-video). -/
inductive WorkflowKind
  | productAd
  | mechanismOfAction
  | doctorAd
  | socialMediaClip
  | complianceVideo
deriving DecidableEq, Fintype

/-- Modelled from the spec: the StageRegistry's ordered stage list per
WorkflowKind (spec §3 StageSequence: `[scenes, script, visuals,
animations, tts, render]`; one kind omits `animations`).  The spec does
not name the kind omitting `animations`; the model picks
`mechanismOfAction` as that kind (its pipeline is Manim-based; the
`animations` stage is documented as Remotion-only). -/
def stageSequence : WorkflowKind → List StageId
  | .productAd => [.scenes, .script, .visuals, .animations, .tts, .render]
  | .mechanismOfAction => [.scenes, .script, .visuals, .tts, .render]
  | .doctorAd => [.scenes, .script, .visuals, .animations, .tts, .render]
  | .socialMediaClip => [.scenes, .script, .visuals, .animations, .tts, .render]
  | .complianceVideo => [.scenes, .script, .visuals, .animations, .tts, .render]

/-- Inbound operator commands (spec §6 transport protocol). -/
inductive Command
  | start (kind : WorkflowKind) (inputs : String)
  | accept
  | regenerate (feedback : Option String)
  | stop
deriving DecidableEq

/-- Names of the commands, used when an event reports the currently
valid command set (spec §7). -/
inductive CommandName
  | start
  | accept
  | regenerate
  | stop
deriving DecidableEq

/-- One execution of a stage (spec §3 StageAttempt): version number,
success/failure outcome, error description on failure, and the operator
feedback that was active when the attempt ran. -/
structure StageAttempt where
  version : Nat
  success : Bool
  error : Option String
  feedback : Option String
deriving DecidableEq

/-- Session lifecycle status (spec §3). -/
inductive Status
  | active
  | completed
  | stopped
  | failed
deriving DecidableEq

/-- Modelled from the spec: the Session root entity (spec §3; doc
`CreatorSession`: video_type, payload, stage_order, stage_index,
stage_outputs, stage_versions, user_feedback, is_active). -/
structure Session where
  kind : WorkflowKind
  initialInputs : String
  sequence : List StageId
  cursor : Nat
  history : StageId → List StageAttempt
  versions : StageId → Nat
  status : Status
  pendingFeedback : Option String

/-- The stage the cursor currently points at. -/
def currentStage (s : Session) : StageId :=
  s.sequence.getD s.cursor .render

/-- Outbound events (spec §6). Payloads the orchestrator merely forwards
opaquely (outputs, artifact locations, session ids) are elided. -/
inductive Event
  | sessionStarted (kind : WorkflowKind)
  | stageRunning (stage : StageId) (version : Nat)
  | stageCompleted (stage : StageId) (version : Nat)
      (nextActions : List CommandName) (progress : Nat × Nat)
  | stageFailed (stage : StageId) (version : Nat) (error : Option String)
      (nextActions : List CommandName)
  | pipelineComplete
  | sessionStopped
  | protocolError (validNow : List CommandName)
deriving DecidableEq

/-- Modelled from the spec: the per-channel orchestrator state — at most
one Session, at most one in-flight stage dispatch (stage id and the
version it was dispatched at), and channel liveness (spec §4.2). -/
structure OrchState where
  session : Option Session
  inflight : Option (StageId × Nat)
  live : Bool

/-- Inputs the orchestrator reacts to: an inbound command, the
resolution of an in-flight stage execution (stage, version, outcome,
error description), or the channel disconnecting (spec §4.2). -/
inductive Input
  | cmd (c : Command)
  | resolve (stage : StageId) (version : Nat) (success : Bool) (error : Option String)
  | disconnect

/-- Modelled from the spec: the set of commands currently valid, as
reported to the operator on rejections (spec §4.1, §7). -/
def validCommands (st : OrchState) : List CommandName :=
  match st.session with
  | none => [.start]
  | some s =>
    if s.status = .active then
      if st.inflight = none then
        match (s.history (currentStage s)).getLast? with
        | some a => if a.success then [.accept, .regenerate, .stop] else [.regenerate, .stop]
        | none => [.stop]
      else [.stop]
    else []

/-- Rejection: invalid-for-state commands leave the state untouched and
report the currently valid command set (spec §4.1, §7). -/
def reject (st : OrchState) : OrchState × List Event :=
  (st, [.protocolError (validCommands st)])

/-- Bump one stage's version counter (doc flow: "[Increment version
counter]"). -/
def bumpVersion (vs : StageId → Nat) (g : StageId) : StageId → Nat :=
  fun g2 => if g2 = g then vs g2 + 1 else vs g2

/-- Modelled from the spec: apply one inbound command to the state
(spec §4.1 transitions). -/
def applyCommand (st : OrchState) (c : Command) : OrchState × List Event :=
  match st.session with
  | none =>
    match c with
    | .start kind inputs =>
      let seq := stageSequence kind
      let g0 := seq.getD 0 .render
      let s : Session :=
        { kind := kind, initialInputs := inputs, sequence := seq, cursor := 0,
          history := fun _ => [], versions := bumpVersion (fun _ => 0) g0,
          status := .active, pendingFeedback := none }
      ({ session := some s, inflight := some (g0, 1), live := st.live },
        [.sessionStarted kind, .stageRunning g0 1])
    | _ => reject st
  | some s =>
    if s.status = .active then
      match c with
      | .start _ _ => reject st
      | .stop =>
        let s' := { s with status := Status.stopped }
        ({ session := some s', inflight := none, live := st.live },
          [.sessionStopped])
      | .accept =>
        match st.inflight with
        | some _ => reject st
        | none =>
          match (s.history (currentStage s)).getLast? with
          | none => reject st
          | some a =>
            if a.success then
              if s.cursor + 1 = s.sequence.length then
                let s' := { s with cursor := s.cursor + 1, status := Status.completed }
                ({ session := some s', inflight := none, live := st.live },
                  [.pipelineComplete])
              else
                let g := s.sequence.getD (s.cursor + 1) .render
                let s' := { s with cursor := s.cursor + 1, versions := bumpVersion s.versions g }
                ({ session := some s', inflight := some (g, s.versions g + 1), live := st.live },
                  [.stageRunning g (s.versions g + 1)])
            else reject st
      | .regenerate fb =>
        match st.inflight with
        | some _ => reject st
        | none =>
          let g := currentStage s
          let s' := { s with versions := bumpVersion s.versions g, pendingFeedback := fb }
          ({ session := some s', inflight := some (g, s.versions g + 1), live := st.live },
            [.stageRunning g (s.versions g + 1)])
    else reject st

/-- Modelled from the spec: resolution of a stage execution (spec §4.2
dispatchStage: on resolution, if the owning Session is still live and
this dispatch is still the current one for that stage+version, record
the StageAttempt and emit the corresponding event; otherwise discard
the result silently). -/
def applyResolve (st : OrchState) (g : StageId) (v : Nat) (ok : Bool)
    (err : Option String) : OrchState × List Event :=
  match st.session with
  | none => (st, [])
  | some s =>
    if s.status = .active ∧ st.inflight = some (g, v) then
      let a : StageAttempt :=
        { version := v, success := ok, error := err, feedback := s.pendingFeedback }
      let s' : Session :=
        { s with history := fun g2 => if g2 = g then s.history g2 ++ [a] else s.history g2,
                 pendingFeedback := none }
      (({ session := some s', inflight := none, live := st.live } : OrchState),
        [if ok then
           Event.stageCompleted g v [.accept, .regenerate, .stop]
             (s.cursor + 1, s.sequence.length)
         else
           Event.stageFailed g v err [.regenerate, .stop]])
    else (st, [])

/-- Modelled from the spec: one orchestrator step.  After the channel
disconnects nothing mutates and nothing is emitted (spec §4.2
onDisconnect; §5 cancellation). -/
def step (st : OrchState) (i : Input) : OrchState × List Event :=
  if st.live then
    match i with
    | .cmd c => applyCommand st c
    | .resolve g v ok err => applyResolve st g v ok err
    | .disconnect => ({ session := none, inflight := none, live := false }, [])
  else (st, [])

/-- The initial per-channel state: no session yet, channel open. -/
def init : OrchState := { session := none, inflight := none, live := true }

/-- Run a list of inputs, collecting the emitted events in order. -/
def runFrom (st : OrchState) : List Input → OrchState × List Event
  | [] => (st, [])
  | i :: l =>
    let p := step st i
    let q := runFrom p.1 l
    (q.1, p.2 ++ q.2)

/-- The state after running a list of inputs. -/
def runState (st : OrchState) (l : List Input) : OrchState := (runFrom st l).1

/-- One review round for a stage on the happy path: its first dispatch
resolves successfully and the operator accepts. -/
def stageRound (g : StageId) : List Input :=
  [Input.resolve g 1 true none, Input.cmd .accept]

/-- The happy-path trace prefix: start, then resolve-and-accept the
first `j` stages of the kind's sequence. -/
def traceUpTo (k : WorkflowKind) (j : Nat) : List Input :=
  Input.cmd (.start k "") :: ((stageSequence k).take j).flatMap stageRound

/-- The full happy-path trace: accept through every stage in sequence. -/
def fullTrace (k : WorkflowKind) : List Input := traceUpTo k (stageSequence k).length

/-- Recognizer for the pipeline-completion event. -/
def isPipelineComplete : Event → Bool
  | .pipelineComplete => true
  | _ => false

/-- A state is dead once the channel is gone or the session has left
`active`: no stage-result event can be emitted from it again. -/
def Dead (st : OrchState) : Prop :=
  st.live = false ∨ ∃ s, st.session = some s ∧ s.status ≠ Status.active

/-- Recognizer for stage-result events (`stage_completed` / `stage_failed`). -/
def isStageResult : Event → Bool
  | .stageCompleted _ _ _ _ => true
  | .stageFailed _ _ _ _ => true
  | _ => false

/-- 1 for the stage currently dispatched, 0 for every other stage. -/
def inflightBonus (infl : Option (StageId × Nat)) (g : StageId) : Nat :=
  match infl with
  | some (g2, _) => if g2 = g then 1 else 0
  | none => 0

/-- Version bookkeeping invariant: recorded attempt versions for each
stage are exactly `[1, …, n]` in order, and an in-flight dispatch (only
possible while active) carries version `n + 1` for its stage. -/
def Inv (st : OrchState) : Prop :=
  ∀ s, st.session = some s →
    (∀ g, (s.history g).map StageAttempt.version = List.range' 1 (s.history g).length) ∧
    (s.status = Status.active → ∀ g,
      s.versions g = (s.history g).length + inflightBonus st.inflight g) ∧
    (∀ g v, st.inflight = some (g, v) →
      s.status = Status.active ∧ v = s.versions g)

/-- A concrete mid-pipeline session used to witness the command
theorems: a product-ad run whose first stage has one successful
attempt awaiting the operator's decision. -/
def exSession : Session :=
  { kind := .productAd, initialInputs := "", sequence := stageSequence .productAd,
    cursor := 0,
    history := fun g => if g = .scenes then [⟨1, true, none, none⟩] else [],
    versions := fun g => if g = .scenes then 1 else 0,
    status := .active, pendingFeedback := none }

/-- The orchestrator state holding `exSession`, nothing in flight. -/
def exState : OrchState := { session := some exSession, inflight := none, live := true }

/-- A concrete running state: same session but with the first attempt of
stage `scenes` still in flight and not yet recorded. -/
def exRunningSession : Session :=
  { kind := .productAd, initialInputs := "", sequence := stageSequence .productAd,
    cursor := 0, history := fun _ => [],
    versions := fun g => if g = .scenes then 1 else 0,
    status := .active, pendingFeedback := none }

/-- The orchestrator state holding `exRunningSession` with stage
`scenes` version 1 in flight. -/
def exRunningState : OrchState :=
  { session := some exRunningSession, inflight := some (.scenes, 1), live := true }

/-- `exSession` after the operator stops it. -/
def exStoppedSession : Session := { exSession with status := Status.stopped }

end CreatorMode

namespace Pharma

/-- Image reference of a scene (`PharmaVideo.tsx` Scene.image). -/
structure ImageRef where
  src : String
  alt : Option String
deriving DecidableEq

/-- Video reference of a scene (`PharmaVideo.tsx` Scene.video). -/
structure VideoRef where
  src : String
deriving DecidableEq

/-- One scene of the composition (`PharmaVideo.tsx` type Scene).
JavaScript numbers carrying durations are modelled as rationals. -/
structure Scene where
  scene_id : Int
  duration_sec : ℚ
  concept : String
  script : String
  image : Option ImageRef
  video : Option VideoRef
  audio_src : Option String
deriving DecidableEq

/-- Frame count of one scene at a given fps:
`Math.max(1, Math.ceil(scene.duration_sec * fps))` — appears both in
`calculateMetadata` and in the `PharmaVideo` component. -/
def sceneDurationFrames (fps : ℕ) (s : Scene) : ℤ :=
  max 1 ⌈s.duration_sec * (fps : ℚ)⌉

/-- Result of `calculateMetadata` (`PharmaVideo.tsx`). -/
structure Metadata where
  fps : ℕ
  width : ℕ
  height : ℕ
  durationInFrames : ℤ
deriving DecidableEq

/-- `calculateMetadata` from `PharmaVideo.tsx`: fps 30, 1920×1080,
`durationInFrames = Σ max(1, ceil(duration_sec * fps)) + fps * 3`. -/
def calculateMetadata (scenes : List Scene) : Metadata :=
  let fps : ℕ := 30
  let sceneFrames : ℤ := scenes.foldl (fun sum s => sum + sceneDurationFrames fps s) 0
  let creditFrames : ℤ := (fps : ℤ) * 3
  { fps := fps, width := 1920, height := 1080,
    durationInFrames := sceneFrames + creditFrames }

/-- The `(from, durationInFrames)` pairs of the scene `Sequence`s laid
out by the `PharmaVideo` component: `from` starts at 0 and each scene
advances it by its own frame count. -/
def sceneLayout (fps : ℕ) (frm : ℤ) : List Scene → List (ℤ × ℤ)
  | [] => []
  | s :: rest =>
    (frm, sceneDurationFrames fps s) :: sceneLayout fps (frm + sceneDurationFrames fps s) rest

/-- The `from` value left after mapping all scenes — where the credits
`Sequence` starts in the `PharmaVideo` component. -/
def creditsFrom (fps : ℕ) (scenes : List Scene) : ℤ :=
  scenes.foldl (fun f s => f + sceneDurationFrames fps s) 0

/-- The credits `Sequence` of the `PharmaVideo` component:
`from` after the last scene, `durationInFrames = fps * 3`. -/
def creditsSequence (fps : ℕ) (scenes : List Scene) : ℤ × ℤ :=
  (creditsFrom fps scenes, (fps : ℤ) * 3)

/-- The inline `calculateMetadata` of the older Root composition
(unnamed Root.tsx variant, `src/unnamed/part_006`):
`Math.ceil(totalSec * FPS) + FPS * 3` with `FPS = 30` and
`totalSec = Σ duration_sec`. -/
def rootInlineDurationInFrames (scenes : List Scene) : ℤ :=
  ⌈(scenes.foldl (fun t s => t + s.duration_sec) 0) * (30 : ℚ)⌉ + 30 * 3

/-- Shorthand for a scene whose only relevant datum is its duration. -/
def mkScene (n : Int) (d : ℚ) : Scene :=
  { scene_id := n, duration_sec := d, concept := "", script := "",
    image := none, video := none, audio_src := none }

/-- Two scenes of half a frame each: the inline Root metadata rounds
their summed duration once, the exported metadata rounds per scene. -/
def cexScenes : List Scene := [mkScene 1 (1 / 60), mkScene 2 (1 / 60)]

/-- A scene list with whole-second positive durations. -/
def wholeScenes : List Scene := [mkScene 1 5, mkScene 2 3]

end Pharma

namespace Canvas

/-- Node kinds of the workflow canvas (`WorkflowNodeData.type` in
`src/unnamed/part_007`). -/
inductive NodeType
  | input
  | userAssets
  | scenes
  | fetchedAssets
  | script
  | video
deriving DecidableEq

/-- A canvas node (`WorkflowNodeData` in `src/unnamed/part_007`).  The
`content: any` object is modelled as a partial map from keys to opaque
string values; JavaScript numbers are modelled as rationals. -/
structure WorkflowNodeData where
  id : String
  type : NodeType
  title : String
  x : ℚ
  y : ℚ
  width : ℚ
  height : ℚ
  isProcessing : Bool
  isComplete : Bool
  content : String → Option String

/-- JavaScript object spread `{ ...old, ...patch }`: keys present in the
patch win, all other keys keep their old value. -/
def mergeContent (old patch : String → Option String) : String → Option String :=
  fun key =>
    match patch key with
    | some v => some v
    | none => old key

/-- `updateNodeContent` from `src/unnamed/part_007` (lines 353–365):
maps over the node list; on the node(s) whose id matches, merges the
content patch and overrides `isComplete` / `isProcessing` only when the
corresponding optional argument was supplied. -/
def updateNodeContent (nodes : List WorkflowNodeData) (id : String)
    (newContent : String → Option String) (isComplete : Option Bool)
    (isProcessing : Option Bool) : List WorkflowNodeData :=
  nodes.map fun n =>
    if n.id = id then
      { n with content := mergeContent n.content newContent,
               isComplete := isComplete.getD n.isComplete,
               isProcessing := isProcessing.getD n.isProcessing }
    else n

/-- The replacement produced for a matching node inside
`updateNodeContent`. -/
def updatedNode (n : WorkflowNodeData) (patch : String → Option String)
    (ic ip : Option Bool) : WorkflowNodeData :=
  { n with content := mergeContent n.content patch,
           isComplete := ic.getD n.isComplete,
           isProcessing := ip.getD n.isProcessing }

/-- A concrete node for the witness. -/
def exNode : WorkflowNodeData :=
  { id := "node-1", type := .scenes, title := "Scenes", x := 0, y := 100,
    width := 280, height := 220, isProcessing := false, isComplete := false,
    content := fun key => if key = "text" then some "old" else none }

/-- A second node with a different id. -/
def exNode2 : WorkflowNodeData :=
  { id := "node-2", type := .script, title := "Script", x := 380, y := 200,
    width := 280, height := 220, isProcessing := false, isComplete := false,
    content := fun _ => none }

/-- A concrete content patch for the witness. -/
def exPatch : String → Option String :=
  fun key => if key = "text" then some "new" else none

end Canvas

namespace CreatorMode

theorem step_cmd (st : OrchState) (c : Command) (h : st.live = true) :
    step st (.cmd c) = applyCommand st c := by
  simp [step, h]

theorem step_resolve_eq (st : OrchState) (g : StageId) (v : Nat) (ok : Bool)
    (err : Option String) (h : st.live = true) :
    step st (.resolve g v ok err) = applyResolve st g v ok err := by
  simp [step, h]

/-- C6: There are exactly five WorkflowKinds; every kind's stage
sequence is `[scenes, script, visuals, animations, tts, render]`,
except that exactly one kind omits the `animations` stage. -/
theorem c6_registry_sequences :
    Fintype.card WorkflowKind = 5 ∧
    (∀ k, stageSequence k = [.scenes, .script, .visuals, .animations, .tts, .render] ∨
          stageSequence k = [.scenes, .script, .visuals, .tts, .render]) ∧
    (∃! k, stageSequence k = [.scenes, .script, .visuals, .tts, .render]) := by
  exact ⟨by decide, by decide, WorkflowKind.mechanismOfAction, by decide, by decide⟩

/-- C1: when the current stage's latest attempt succeeded, `accept`
increments the cursor by exactly 1; at the end of the sequence the
session completes and exactly one `pipeline_complete` event is emitted,
otherwise the stage at the new cursor is dispatched.  Accepting through
every stage from `start` yields exactly one `pipeline_complete` event,
with the cursor increasing by 1 per accept, for every WorkflowKind. -/
theorem c1_accept_advances :
    (∀ (st : OrchState) (s : Session) (a : StageAttempt),
      st.live = true → st.session = some s → s.status = .active → st.inflight = none →
      (s.history (currentStage s)).getLast? = some a → a.success = true →
      ∃ s2, ((step st (.cmd .accept)).1).session = some s2 ∧
        s2.cursor = s.cursor + 1 ∧
        (s.cursor + 1 = s.sequence.length →
          s2.status = .completed ∧ (step st (.cmd .accept)).2 = [.pipelineComplete]) ∧
        (s.cursor + 1 ≠ s.sequence.length →
          s2.status = .active ∧
          (step st (.cmd .accept)).2 =
            [.stageRunning (s.sequence.getD (s.cursor + 1) .render)
              (s.versions (s.sequence.getD (s.cursor + 1) .render) + 1)] ∧
          (step st (.cmd .accept)).1.inflight =
            some (s.sequence.getD (s.cursor + 1) .render,
              s.versions (s.sequence.getD (s.cursor + 1) .render) + 1))) ∧
    (∀ k : WorkflowKind,
      ((runFrom init (fullTrace k)).2).countP isPipelineComplete = 1 ∧
      ∀ j : Fin ((stageSequence k).length + 1),
        ((runState init (traceUpTo k j.val)).session).map Session.cursor = some j.val) := by
  constructor
  · intro st s a hl hs ha hi hg hsucc
    obtain ⟨sess, infl, lv⟩ := st
    simp only at hl hs hi
    subst hl hs hi
    rw [step_cmd _ _ rfl]
    simp only [applyCommand, ha, if_true, hg, hsucc]
    by_cases hf : s.cursor + 1 = s.sequence.length
    · rw [if_pos hf]
      exact ⟨_, rfl, rfl, fun _ => ⟨rfl, rfl⟩, fun hne => absurd hf hne⟩
    · rw [if_neg hf]
      exact ⟨_, rfl, rfl, fun heq => absurd heq hf, fun _ => ⟨rfl, rfl, rfl⟩⟩
  · decide

theorem c1_accept_advances_witness :
    ∃ s2, ((step exState (.cmd .accept)).1).session = some s2 ∧
      s2.cursor = exSession.cursor + 1 ∧
      (exSession.cursor + 1 = exSession.sequence.length →
        s2.status = .completed ∧ (step exState (.cmd .accept)).2 = [.pipelineComplete]) ∧
      (exSession.cursor + 1 ≠ exSession.sequence.length →
        s2.status = .active ∧
        (step exState (.cmd .accept)).2 =
          [.stageRunning (exSession.sequence.getD (exSession.cursor + 1) .render)
            (exSession.versions (exSession.sequence.getD (exSession.cursor + 1) .render) + 1)] ∧
        (step exState (.cmd .accept)).1.inflight =
          some (exSession.sequence.getD (exSession.cursor + 1) .render,
            exSession.versions (exSession.sequence.getD (exSession.cursor + 1) .render) + 1)) :=
  c1_accept_advances.1 exState exSession ⟨1, true, none, none⟩ rfl rfl rfl rfl rfl rfl

/-- C3: a command received when the status is not `active`, an `accept`
with no recorded attempt for the current stage, and an `accept` or
`regenerate` while a stage execution is in flight, are each rejected:
the whole orchestrator state is unchanged and the response reports the
currently valid command set. -/
theorem c3_invalid_for_state_rejected :
    ∀ (st : OrchState) (s : Session) (c : Command),
      st.live = true → st.session = some s →
      (s.status ≠ .active ∨
       (s.status = .active ∧ c = .accept ∧ st.inflight = none ∧
         (s.history (currentStage s)).getLast? = none) ∨
       (s.status = .active ∧ (c = .accept ∨ ∃ fb, c = .regenerate fb) ∧
         st.inflight ≠ none)) →
      step st (.cmd c) = (st, [.protocolError (validCommands st)]) := by
  intro st s c hl hs hcase
  obtain ⟨sess, infl, lv⟩ := st
  dsimp only at hl hs
  subst hl hs
  rw [step_cmd _ _ rfl]
  rcases hcase with hna | ⟨ha, hc, hi, hlast⟩ | ⟨ha, hc, hi⟩
  · simp only [applyCommand, if_neg hna]
    rfl
  · subst hc
    dsimp only at hi
    subst hi
    simp only [applyCommand, ha, if_true, hlast]
    rfl
  · have : ∃ p, infl = some p := by
      cases hinf : infl
      · exact absurd hinf hi
      · exact ⟨_, rfl⟩
    obtain ⟨p, hp⟩ := this
    subst hp
    rcases hc with hc | ⟨fb, hc⟩ <;> subst hc <;>
      simp only [applyCommand, ha, if_true] <;> rfl

theorem c3_invalid_for_state_rejected_witness :
    step exRunningState (.cmd .accept) =
      (exRunningState, [.protocolError (validCommands exRunningState)]) :=
  c3_invalid_for_state_rejected exRunningState exRunningSession .accept rfl rfl
    (Or.inr (Or.inr ⟨rfl, Or.inl rfl, by decide⟩))

/-- C4: a failed stage execution records a failed StageAttempt carrying
the error, does not advance the cursor, keeps the status `active`, and
the `stage_failed` event reports exactly the valid next commands,
`regenerate` and `stop`. -/
theorem c4_stage_failure_recoverable :
    ∀ (st : OrchState) (s : Session) (g : StageId) (v : Nat) (err : Option String),
      st.live = true → st.session = some s → s.status = .active →
      st.inflight = some (g, v) → g = currentStage s →
      ∃ s2, ((step st (.resolve g v false err)).1).session = some s2 ∧
        s2.history g = s.history g ++ [⟨v, false, err, s.pendingFeedback⟩] ∧
        s2.cursor = s.cursor ∧ s2.status = .active ∧
        (step st (.resolve g v false err)).2 =
          [.stageFailed g v err [.regenerate, .stop]] ∧
        validCommands (step st (.resolve g v false err)).1 = [.regenerate, .stop] := by
  intro st s g v err hl hs ha hi hg
  obtain ⟨sess, infl, lv⟩ := st
  dsimp only at hl hs hi
  subst hl hs hi
  rw [step_resolve_eq _ _ _ _ _ rfl]
  have hc : s.status = Status.active ∧
      (some (g, v) : Option (StageId × Nat)) = some (g, v) := ⟨ha, rfl⟩
  dsimp only [applyResolve]
  rw [if_pos hc]
  refine ⟨_, rfl, ?_, rfl, ha, rfl, ?_⟩
  · simp
  · dsimp only [validCommands, currentStage]
    rw [if_pos ha, if_pos rfl]
    have hcur : s.sequence.getD s.cursor StageId.render = g := by
      rw [hg]; rfl
    rw [hcur]
    simp [List.getLast?_append_cons]

theorem c4_stage_failure_recoverable_witness :
    ∃ s2, ((step exRunningState (.resolve .scenes 1 false (some "boom"))).1).session = some s2 ∧
      s2.history .scenes = exRunningSession.history .scenes ++
        [⟨1, false, some "boom", exRunningSession.pendingFeedback⟩] ∧
      s2.cursor = exRunningSession.cursor ∧ s2.status = .active ∧
      (step exRunningState (.resolve .scenes 1 false (some "boom"))).2 =
        [.stageFailed .scenes 1 (some "boom") [.regenerate, .stop]] ∧
      validCommands (step exRunningState (.resolve .scenes 1 false (some "boom"))).1 =
        [.regenerate, .stop] :=
  c4_stage_failure_recoverable exRunningState exRunningSession .scenes 1 (some "boom")
    rfl rfl rfl rfl rfl

/-- C7: status transitions are monotonic — a step either keeps the
status or moves an `active` session to a terminal status, and from a
non-`active` (terminal) status the session never changes at all. -/
theorem c7_status_monotonic :
    ∀ (st : OrchState) (i : Input) (s s2 : Session),
      st.session = some s → ((step st i).1).session = some s2 →
      (s2.status = s.status ∨
        (s.status = .active ∧
          (s2.status = .completed ∨ s2.status = .stopped ∨ s2.status = .failed))) ∧
      (s.status ≠ .active → s2 = s) := by
  intro st i s s2 hs h2
  obtain ⟨sess, infl, lv⟩ := st
  dsimp only at hs
  subst hs
  cases lv with
  | false =>
    simp only [step, Bool.false_eq_true, if_false] at h2
    try dsimp only at h2
    simp only [Option.some.injEq] at h2
    subst h2
    exact ⟨Or.inl rfl, fun _ => rfl⟩
  | true =>
    cases i with
    | disconnect => simp [step] at h2
    | cmd c =>
      rw [step_cmd _ _ rfl] at h2
      by_cases ha : s.status = Status.active
      · cases c with
        | start k inp =>
          simp only [applyCommand, if_pos ha, reject] at h2
          try dsimp only at h2
          simp only [Option.some.injEq] at h2
          subst h2
          exact ⟨Or.inl rfl, fun _ => rfl⟩
        | stop =>
          simp only [applyCommand, if_pos ha] at h2
          try dsimp only at h2
          simp only [Option.some.injEq] at h2
          subst h2
          exact ⟨Or.inr ⟨ha, Or.inr (Or.inl rfl)⟩, fun hn => absurd ha hn⟩
        | accept =>
          simp only [applyCommand, if_pos ha] at h2
          cases infl with
          | some p =>
            simp only [reject] at h2
            try dsimp only at h2
            simp only [Option.some.injEq] at h2
            subst h2
            exact ⟨Or.inl rfl, fun _ => rfl⟩
          | none =>
            cases hgl : (s.history (currentStage s)).getLast? with
            | none =>
              simp only [hgl, reject] at h2
              try dsimp only at h2
              simp only [Option.some.injEq] at h2
              subst h2
              exact ⟨Or.inl rfl, fun _ => rfl⟩
            | some a =>
              simp only [hgl] at h2
              cases hsu : a.success with
              | false =>
                simp only [hsu, Bool.false_eq_true, if_false, reject] at h2
                try dsimp only at h2
                simp only [Option.some.injEq] at h2
                subst h2
                exact ⟨Or.inl rfl, fun _ => rfl⟩
              | true =>
                simp only [hsu, if_true] at h2
                by_cases hf : s.cursor + 1 = s.sequence.length
                · rw [if_pos hf] at h2
                  try dsimp only at h2
                  simp only [Option.some.injEq] at h2
                  subst h2
                  exact ⟨Or.inr ⟨ha, Or.inl rfl⟩, fun hn => absurd ha hn⟩
                · rw [if_neg hf] at h2
                  try dsimp only at h2
                  simp only [Option.some.injEq] at h2
                  subst h2
                  exact ⟨Or.inl rfl, fun hn => absurd ha hn⟩
        | regenerate fb =>
          simp only [applyCommand, if_pos ha] at h2
          cases infl with
          | some p =>
            simp only [reject] at h2
            try dsimp only at h2
            simp only [Option.some.injEq] at h2
            subst h2
            exact ⟨Or.inl rfl, fun _ => rfl⟩
          | none =>
            try dsimp only at h2
            simp only [Option.some.injEq] at h2
            subst h2
            exact ⟨Or.inl rfl, fun hn => absurd ha hn⟩
      · simp only [applyCommand, if_neg ha, reject] at h2
        try dsimp only at h2
        simp only [Option.some.injEq] at h2
        subst h2
        exact ⟨Or.inl rfl, fun _ => rfl⟩
    | resolve g v ok err =>
      rw [step_resolve_eq _ _ _ _ _ rfl] at h2
      dsimp only [applyResolve] at h2
      by_cases hc : s.status = Status.active ∧ infl = some (g, v)
      · rw [if_pos hc] at h2
        try dsimp only at h2
        simp only [Option.some.injEq] at h2
        subst h2
        exact ⟨Or.inl rfl, fun hn => absurd hc.1 hn⟩
      · rw [if_neg hc] at h2
        try dsimp only at h2
        simp only [Option.some.injEq] at h2
        subst h2
        exact ⟨Or.inl rfl, fun _ => rfl⟩

theorem c7_status_monotonic_witness :
    (exStoppedSession.status = exSession.status ∨
      (exSession.status = .active ∧
        (exStoppedSession.status = .completed ∨ exStoppedSession.status = .stopped ∨
          exStoppedSession.status = .failed))) ∧
    (exSession.status ≠ .active → exStoppedSession = exSession) :=
  c7_status_monotonic exState (.cmd .stop) exSession exStoppedSession rfl rfl

theorem step_notLive (st : OrchState) (i : Input) (h : st.live = false) :
    step st i = (st, []) := by
  simp [step, h]

theorem runFrom_notLive : ∀ (l : List Input) (st : OrchState), st.live = false →
    runFrom st l = (st, []) := by
  intro l
  induction l with
  | nil => intro st h; rfl
  | cons i l ih =>
    intro st h
    simp [runFrom, step_notLive st i h, ih st h]

theorem dead_step (st : OrchState) (i : Input) (h : Dead st) :
    Dead (step st i).1 ∧ ∀ e ∈ (step st i).2, isStageResult e = false := by
  obtain ⟨sess, infl, lv⟩ := st
  cases lv with
  | false =>
    rw [step_notLive _ _ rfl]
    exact ⟨h, by simp⟩
  | true =>
    rcases h with hl | ⟨s, hs, hns⟩
    · exact absurd hl (by simp)
    · dsimp only at hs
      subst hs
      cases i with
      | disconnect =>
        refine ⟨Or.inl rfl, ?_⟩
        simp [step]
      | cmd c =>
        rw [step_cmd _ _ rfl]
        have hred : applyCommand ⟨some s, infl, true⟩ c =
            reject ⟨some s, infl, true⟩ := by
          cases c <;> simp only [applyCommand, if_neg hns]
        rw [hred]
        exact ⟨Or.inr ⟨s, rfl, hns⟩, by simp [reject, isStageResult]⟩
      | resolve g v ok err =>
        rw [step_resolve_eq _ _ _ _ _ rfl]
        have hred : applyResolve ⟨some s, infl, true⟩ g v ok err =
            (⟨some s, infl, true⟩, []) := by
          dsimp only [applyResolve]
          rw [if_neg (fun hcc => hns hcc.1)]
        rw [hred]
        exact ⟨Or.inr ⟨s, rfl, hns⟩, by simp⟩

theorem dead_run : ∀ (l : List Input) (st : OrchState), Dead st →
    ∀ e ∈ (runFrom st l).2, isStageResult e = false := by
  intro l
  induction l with
  | nil => intro st h e he; simp [runFrom] at he
  | cons i l ih =>
    intro st h e he
    simp only [runFrom, List.mem_append] at he
    rcases he with he | he
    · exact (dead_step st i h).2 e he
    · exact ih _ (dead_step st i h).1 e he

/-- C5: terminating a session by `stop` (even with a stage in flight)
emits `session_stopped`, and a stage result arriving afterwards mutates
nothing and emits nothing; no `stage_completed`/`stage_failed` is ever
emitted after the stop.  After a disconnect the orchestrator emits no
event at all and mutates nothing. -/
theorem c5_discard_after_termination :
    (∀ (st : OrchState) (s : Session), st.live = true → st.session = some s →
      s.status = .active →
      (step st (.cmd .stop)).2 = [.sessionStopped] ∧
      (∀ g v ok err, step ((step st (.cmd .stop)).1) (.resolve g v ok err) =
        ((step st (.cmd .stop)).1, [])) ∧
      (∀ l, ∀ e ∈ (runFrom ((step st (.cmd .stop)).1) l).2, isStageResult e = false)) ∧
    (∀ (st : OrchState) (i : Input), st.live = false → step st i = (st, [])) ∧
    (∀ (st : OrchState) (l : List Input), st.live = false → (runFrom st l).2 = []) ∧
    (∀ st : OrchState, ((step st .disconnect).1).live = false ∧
      (step st .disconnect).2 = []) := by
  refine ⟨?_, step_notLive, ?_, ?_⟩
  · intro st s hl hs ha
    obtain ⟨sess, infl, lv⟩ := st
    dsimp only at hl hs
    subst hl hs
    rw [step_cmd _ _ rfl]
    simp only [applyCommand, if_pos ha]
    refine ⟨by trivial, ?_, ?_⟩
    · intro g v ok err
      rw [step_resolve_eq _ _ _ _ _ rfl]
      dsimp only [applyResolve]
      rw [if_neg (fun hcc => Option.noConfusion hcc.2)]
    · intro l e he
      refine dead_run l _ (Or.inr ⟨_, rfl, ?_⟩) e he
      intro habs
      exact Status.noConfusion habs
  · intro st l h
    rw [runFrom_notLive l st h]
  · intro st
    cases hl : st.live
    · rw [step_notLive _ _ hl]
      exact ⟨hl, rfl⟩
    · simp [step, hl]

theorem c5_discard_after_termination_witness :
    (step exRunningState (.cmd .stop)).2 = [.sessionStopped] ∧
    (∀ g v ok err, step ((step exRunningState (.cmd .stop)).1) (.resolve g v ok err) =
      ((step exRunningState (.cmd .stop)).1, [])) ∧
    (∀ l, ∀ e ∈ (runFrom ((step exRunningState (.cmd .stop)).1) l).2,
      isStageResult e = false) :=
  c5_discard_after_termination.1 exRunningState exRunningSession rfl rfl rfl

theorem inv_step (st : OrchState) (i : Input) (h : Inv st) : Inv (step st i).1 := by
  obtain ⟨sess, infl, lv⟩ := st
  cases lv with
  | false => rw [step_notLive _ _ rfl]; exact h
  | true =>
    cases i with
    | disconnect =>
      intro s hs
      simp [step] at hs
    | cmd c =>
      rw [step_cmd _ _ rfl]
      cases sess with
      | none =>
        cases c with
        | start k inp =>
          dsimp only [applyCommand]
          intro s hs
          simp only [Option.some.injEq] at hs
          subst hs
          refine ⟨fun g => rfl, ?_, ?_⟩
          · intro _ g
            by_cases hg : g = (stageSequence k).getD 0 .render
            · subst hg
              simp [bumpVersion, inflightBonus]
            · simp only [bumpVersion, inflightBonus]
              rw [if_neg hg, if_neg (Ne.symm hg)]
              rfl
          · intro g v hgv
            simp only [Option.some.injEq, Prod.mk.injEq] at hgv
            obtain ⟨hg, hv⟩ := hgv
            subst hg
            subst hv
            exact ⟨rfl, by simp [bumpVersion]⟩
        | accept => exact h
        | regenerate fb => exact h
        | stop => exact h
      | some s =>
        by_cases ha : s.status = Status.active
        · cases c with
          | start k inp =>
            simp only [applyCommand, if_pos ha, reject]
            exact h
          | stop =>
            simp only [applyCommand, if_pos ha]
            intro s2 hs2
            dsimp only at hs2
            simp only [Option.some.injEq] at hs2
            subst hs2
            obtain ⟨hA, _, _⟩ := h s rfl
            refine ⟨hA, ?_, ?_⟩
            · intro habs
              exact absurd habs (by simp)
            · intro g v hgv
              exact Option.noConfusion hgv
          | accept =>
            simp only [applyCommand, if_pos ha]
            cases infl with
            | some p => simp only [reject]; exact h
            | none =>
              cases hgl : (s.history (currentStage s)).getLast? with
              | none => simp only [hgl, reject]; exact h
              | some a =>
                simp only [hgl]
                cases hsu : a.success with
                | false =>
                  simp only [hsu, Bool.false_eq_true, if_false, reject]
                  exact h
                | true =>
                  simp only [hsu, if_true]
                  by_cases hf : s.cursor + 1 = s.sequence.length
                  · rw [if_pos hf]
                    intro s2 hs2
                    dsimp only at hs2
                    simp only [Option.some.injEq] at hs2
                    subst hs2
                    obtain ⟨hA, _, _⟩ := h s rfl
                    refine ⟨hA, ?_, ?_⟩
                    · intro habs
                      exact absurd habs (by simp)
                    · intro g v hgv
                      exact Option.noConfusion hgv
                  · rw [if_neg hf]
                    intro s2 hs2
                    dsimp only at hs2
                    simp only [Option.some.injEq] at hs2
                    subst hs2
                    obtain ⟨hA, hB, _⟩ := h s rfl
                    refine ⟨hA, ?_, ?_⟩
                    · intro _ g2
                      dsimp only [bumpVersion, inflightBonus]
                      have hold := hB ha g2
                      dsimp only [inflightBonus] at hold
                      rw [Nat.add_zero] at hold
                      by_cases hg2 : g2 = s.sequence.getD (s.cursor + 1) .render
                      · rw [if_pos hg2, if_pos hg2.symm, hold]
                      · rw [if_neg hg2, if_neg (fun hh => hg2 hh.symm), hold, Nat.add_zero]
                    · intro g2 v2 hgv
                      dsimp only at hgv
                      simp only [Option.some.injEq, Prod.mk.injEq] at hgv
                      obtain ⟨hg2, hv2⟩ := hgv
                      subst hg2
                      subst hv2
                      refine ⟨ha, ?_⟩
                      dsimp only [bumpVersion]
                      rw [if_pos rfl]
          | regenerate fb =>
            simp only [applyCommand, if_pos ha]
            cases infl with
            | some p => simp only [reject]; exact h
            | none =>
              intro s2 hs2
              dsimp only at hs2
              simp only [Option.some.injEq] at hs2
              subst hs2
              obtain ⟨hA, hB, _⟩ := h s rfl
              refine ⟨hA, ?_, ?_⟩
              · intro _ g2
                dsimp only [bumpVersion, inflightBonus]
                have hold := hB ha g2
                dsimp only [inflightBonus] at hold
                rw [Nat.add_zero] at hold
                by_cases hg2 : g2 = currentStage s
                · rw [if_pos hg2, if_pos hg2.symm, hold]
                · rw [if_neg hg2, if_neg (fun hh => hg2 hh.symm), hold, Nat.add_zero]
              · intro g2 v2 hgv
                dsimp only at hgv
                simp only [Option.some.injEq, Prod.mk.injEq] at hgv
                obtain ⟨hg2, hv2⟩ := hgv
                subst hg2
                subst hv2
                refine ⟨ha, ?_⟩
                dsimp only [bumpVersion]
                rw [if_pos rfl]
        · have hred : applyCommand ⟨some s, infl, true⟩ c =
              reject ⟨some s, infl, true⟩ := by
            cases c <;> simp only [applyCommand, if_neg ha]
          rw [hred]
          exact h
    | resolve g v ok err =>
      rw [step_resolve_eq _ _ _ _ _ rfl]
      cases sess with
      | none => dsimp only [applyResolve]; exact h
      | some s =>
        by_cases hc : s.status = Status.active ∧ infl = some (g, v)
        · dsimp only [applyResolve]
          rw [if_pos hc]
          intro s2 hs2
          dsimp only at hs2
          simp only [Option.some.injEq] at hs2
          subst hs2
          obtain ⟨hA, hB, hC⟩ := h s rfl
          obtain ⟨ha, hi⟩ := hc
          have hvg : v = s.versions g := (hC g v hi).2
          have hlen : s.versions g = (s.history g).length + 1 := by
            have h2 := hB ha g
            rw [hi] at h2
            dsimp only [inflightBonus] at h2
            rw [if_pos rfl] at h2
            exact h2
          refine ⟨?_, ?_, ?_⟩
          · intro g2
            dsimp only
            by_cases hg2 : g2 = g
            · subst hg2
              rw [if_pos rfl]
              rw [List.map_append, hA g2, List.length_append]
              dsimp only [List.map_cons, List.map_nil, List.length_cons, List.length_nil]
              rw [hvg, hlen, List.range'_concat]
              simp [Nat.add_comm]
            · rw [if_neg hg2]
              exact hA g2
          · intro _ g2
            dsimp only [inflightBonus]
            rw [Nat.add_zero]
            by_cases hg2 : g2 = g
            · subst hg2
              rw [if_pos rfl, List.length_append]
              dsimp only [List.length_cons, List.length_nil]
              rw [hlen]
            · rw [if_neg hg2]
              have h2 := hB ha g2
              rw [hi] at h2
              dsimp only [inflightBonus] at h2
              rw [if_neg (fun hh => hg2 hh.symm), Nat.add_zero] at h2
              exact h2
          · intro g2 v2 hgv
            exact Option.noConfusion hgv
        · dsimp only [applyResolve]
          rw [if_neg hc]
          exact h

theorem inv_init : Inv init := fun _ hs => Option.noConfusion hs

theorem inv_run : ∀ (l : List Input) (st : OrchState), Inv st → Inv (runState st l) := by
  intro l
  induction l with
  | nil => intro st h; exact h
  | cons i l ih => intro st h; exact ih _ (inv_step st i h)

/-- C2: `regenerate` never changes the cursor; when accepted it bumps
the current stage's version counter by exactly 1 and no other stage's;
and in every reachable state the recorded attempt versions of each
stage are exactly `1, 2, …, n` — starting at 1, increasing by 1, never
reset and never reused, failed attempts included. -/
theorem c2_regenerate_version_discipline :
    (∀ (st : OrchState) (s s2 : Session) (fb : Option String),
      st.live = true → st.session = some s → s.status = .active →
      ((step st (.cmd (.regenerate fb))).1).session = some s2 →
      s2.cursor = s.cursor) ∧
    (∀ (st : OrchState) (s : Session) (fb : Option String),
      st.live = true → st.session = some s → s.status = .active →
      st.inflight = none →
      ∃ s2, ((step st (.cmd (.regenerate fb))).1).session = some s2 ∧
        s2.cursor = s.cursor ∧
        s2.versions (currentStage s) = s.versions (currentStage s) + 1 ∧
        ∀ g, g ≠ currentStage s → s2.versions g = s.versions g) ∧
    (∀ (l : List Input) (s : Session) (g : StageId),
      (runState init l).session = some s →
      (s.history g).map StageAttempt.version = List.range' 1 (s.history g).length) := by
  refine ⟨?_, ?_, ?_⟩
  · intro st s s2 fb hl hs ha h2
    obtain ⟨sess, infl, lv⟩ := st
    dsimp only at hl hs
    subst hl hs
    rw [step_cmd _ _ rfl] at h2
    simp only [applyCommand, if_pos ha] at h2
    cases infl with
    | some p =>
      simp only [reject] at h2
      try dsimp only at h2
      simp only [Option.some.injEq] at h2
      subst h2
      rfl
    | none =>
      try dsimp only at h2
      simp only [Option.some.injEq] at h2
      subst h2
      rfl
  · intro st s fb hl hs ha hi
    obtain ⟨sess, infl, lv⟩ := st
    dsimp only at hl hs hi
    subst hl hs hi
    rw [step_cmd _ _ rfl]
    simp only [applyCommand, if_pos ha]
    refine ⟨_, rfl, rfl, ?_, ?_⟩
    · simp [bumpVersion]
    · intro g hgne
      simp [bumpVersion, hgne]
  · intro l s g hs
    exact ((inv_run l init inv_init) s hs).1 g

theorem c2_regenerate_version_discipline_witness :
    ∃ s2, ((step exState (.cmd (.regenerate (some "shorter")))).1).session = some s2 ∧
      s2.cursor = exSession.cursor ∧
      s2.versions (currentStage exSession) = exSession.versions (currentStage exSession) + 1 ∧
      ∀ g, g ≠ currentStage exSession → s2.versions g = exSession.versions g :=
  c2_regenerate_version_discipline.2.1 exState exSession (some "shorter") rfl rfl rfl rfl

end CreatorMode

namespace Pharma

theorem foldl_add_eq_sum {M : Type} [AddCommMonoid M] (f : Scene → M) :
    ∀ (l : List Scene) (i : M), l.foldl (fun acc s => acc + f s) i = i + (l.map f).sum := by
  intro l
  induction l with
  | nil => intro i; simp
  | cons a l ih =>
    intro i
    simp only [List.foldl_cons, List.map_cons, List.sum_cons, ih (i + f a)]
    rw [add_assoc]

theorem sceneLayout_getElem :
    ∀ (scenes : List Scene) (fps : ℕ) (frm : ℤ) (k : ℕ) (s : Scene),
      scenes[k]? = some s →
      (sceneLayout fps frm scenes)[k]? =
        some (frm + ((scenes.take k).map (sceneDurationFrames fps)).sum,
          sceneDurationFrames fps s) := by
  intro scenes
  induction scenes with
  | nil => intro fps frm k s h; simp at h
  | cons a l ih =>
    intro fps frm k s h
    cases k with
    | zero =>
      simp only [List.getElem?_cons_zero, Option.some.injEq] at h
      subst h
      simp [sceneLayout]
    | succ k =>
      simp only [List.getElem?_cons_succ] at h
      simp only [sceneLayout, List.getElem?_cons_succ, List.take_succ_cons,
        List.map_cons, List.sum_cons]
      rw [ih _ _ k s h]
      simp [add_assoc]

/-- C8: the PharmaVideo composition lays scenes out contiguously:
scene k's Sequence starts at the summed frame counts of scenes 0..k-1
and occupies `max(1, ceil(duration_sec * fps))` frames (at least 1, so
no overlap); the `fps * 3`-frame credits Sequence starts immediately
after the last scene; at fps 30 the total occupied frames equal the
`durationInFrames` of the exported `calculateMetadata`. -/
theorem c8_layout_matches_metadata :
    ∀ scenes : List Scene,
      (∀ (k : ℕ) (s : Scene), scenes[k]? = some s →
        (sceneLayout 30 0 scenes)[k]? =
          some (((scenes.take k).map (sceneDurationFrames 30)).sum,
            sceneDurationFrames 30 s) ∧
        1 ≤ sceneDurationFrames 30 s) ∧
      creditsSequence 30 scenes = ((scenes.map (sceneDurationFrames 30)).sum, 30 * 3) ∧
      (scenes.map (sceneDurationFrames 30)).sum + 30 * 3 =
        (calculateMetadata scenes).durationInFrames := by
  intro scenes
  refine ⟨?_, ?_, ?_⟩
  · intro k s hk
    refine ⟨?_, le_max_left 1 _⟩
    have h := sceneLayout_getElem scenes 30 0 k s hk
    rw [zero_add] at h
    exact h
  · dsimp only [creditsSequence, creditsFrom]
    rw [foldl_add_eq_sum, zero_add]
    norm_num
  · dsimp only [calculateMetadata]
    rw [foldl_add_eq_sum, zero_add]
    norm_num

theorem c8_layout_matches_metadata_witness :
    (sceneLayout 30 0 wholeScenes)[1]? =
      some (((wholeScenes.take 1).map (sceneDurationFrames 30)).sum,
        sceneDurationFrames 30 (mkScene 2 3)) ∧
    1 ≤ sceneDurationFrames 30 (mkScene 2 3) :=
  (c8_layout_matches_metadata wholeScenes).1 1 (mkScene 2 3) rfl

theorem ceil_sum_mul_le (l : List Scene) :
    ⌈(l.map Scene.duration_sec).sum * (30 : ℚ)⌉ ≤ (l.map (sceneDurationFrames 30)).sum := by
  induction l with
  | nil => simp
  | cons a l ih =>
    simp only [List.map_cons, List.sum_cons, add_mul]
    refine le_trans (Int.ceil_add_le _ _) (add_le_add ?_ ih)
    dsimp only [sceneDurationFrames]
    rw [Nat.cast_ofNat]
    exact le_max_right 1 _

theorem ceil_sum_mul_eq (l : List Scene)
    (h : ∀ s ∈ l, ∃ n : ℤ, 1 ≤ n ∧ s.duration_sec * 30 = (n : ℚ)) :
    ⌈(l.map Scene.duration_sec).sum * (30 : ℚ)⌉ = (l.map (sceneDurationFrames 30)).sum := by
  induction l with
  | nil => simp
  | cons a l ih =>
    obtain ⟨n, hn1, hna⟩ := h a (List.mem_cons_self a l)
    have hrest := ih (fun s hs => h s (List.mem_cons_of_mem a hs))
    simp only [List.map_cons, List.sum_cons, add_mul]
    rw [hna, add_comm ((n : ℚ)) _, Int.ceil_add_int, hrest]
    have hfa : sceneDurationFrames 30 a = n := by
      dsimp only [sceneDurationFrames]
      rw [Nat.cast_ofNat, hna, Int.ceil_intCast]
      exact max_eq_right hn1
    rw [hfa, add_comm]

theorem c9_root_inline_differs :
    rootInlineDurationInFrames cexScenes ≠ (calculateMetadata cexScenes).durationInFrames := by
  have hc : (⌈(1 / 60 : ℚ) * ((30 : ℕ) : ℚ)⌉ : ℤ) = 1 := by
    rw [Int.ceil_eq_iff]
    norm_num
  have h1 : rootInlineDurationInFrames cexScenes = 91 := by
    simp only [rootInlineDurationInFrames, cexScenes, mkScene, List.foldl]
    norm_num
  have h2 : (calculateMetadata cexScenes).durationInFrames = 92 := by
    simp only [calculateMetadata, cexScenes, mkScene, sceneDurationFrames, List.foldl]
    rw [hc]
    norm_num
  rw [h1, h2]
  decide

/-- C9 (amended): the inline Root metadata never exceeds the exported
PharmaVideo metadata, and the two agree whenever every scene's
`duration_sec * 30` is a positive integer (a whole, positive number of
frames); they differ on fractional-frame durations. -/
theorem c9_root_inline_le_pharma :
    (∀ scenes : List Scene,
      rootInlineDurationInFrames scenes ≤ (calculateMetadata scenes).durationInFrames) ∧
    (∀ scenes : List Scene,
      (∀ s ∈ scenes, ∃ n : ℤ, 1 ≤ n ∧ s.duration_sec * 30 = (n : ℚ)) →
      rootInlineDurationInFrames scenes = (calculateMetadata scenes).durationInFrames) := by
  constructor
  · intro scenes
    dsimp only [rootInlineDurationInFrames, calculateMetadata]
    rw [foldl_add_eq_sum, foldl_add_eq_sum, zero_add, zero_add]
    norm_num
    exact ceil_sum_mul_le scenes
  · intro scenes h
    dsimp only [rootInlineDurationInFrames, calculateMetadata]
    rw [foldl_add_eq_sum, foldl_add_eq_sum, zero_add, zero_add,
      ceil_sum_mul_eq scenes h]
    norm_num

theorem c9_root_inline_le_pharma_witness :
    (∀ s ∈ wholeScenes, ∃ n : ℤ, 1 ≤ n ∧ s.duration_sec * 30 = (n : ℚ)) ∧
    rootInlineDurationInFrames wholeScenes =
      (calculateMetadata wholeScenes).durationInFrames := by
  have hh : ∀ s ∈ wholeScenes, ∃ n : ℤ, 1 ≤ n ∧ s.duration_sec * 30 = (n : ℚ) := by
    intro s hs
    simp only [wholeScenes, List.mem_cons, List.not_mem_nil, or_false] at hs
    rcases hs with rfl | rfl
    · exact ⟨150, by norm_num, by norm_num [mkScene]⟩
    · exact ⟨90, by norm_num, by norm_num [mkScene]⟩
  exact ⟨hh, c9_root_inline_le_pharma.2 wholeScenes hh⟩

end Pharma

namespace Canvas

/-- C10: `updateNodeContent` keeps the list length, leaves every node
whose id differs from the target unchanged, and on matching nodes
changes only the content (merged key-by-key with the patch) and the
`isComplete` / `isProcessing` flags (only when supplied), leaving id,
type, title, position and size untouched. -/
theorem c10_updateNodeContent_frame :
    ∀ (nodes : List WorkflowNodeData) (nid : String)
      (patch : String → Option String) (ic ip : Option Bool)
      (k : ℕ) (n : WorkflowNodeData),
      nodes[k]? = some n →
      (updateNodeContent nodes nid patch ic ip).length = nodes.length ∧
      ∃ n2, (updateNodeContent nodes nid patch ic ip)[k]? = some n2 ∧
        (n.id ≠ nid → n2 = n) ∧
        n2.id = n.id ∧ n2.type = n.type ∧ n2.title = n.title ∧
        n2.x = n.x ∧ n2.y = n.y ∧ n2.width = n.width ∧ n2.height = n.height ∧
        (n.id = nid →
          (∀ key, n2.content key =
            match patch key with
            | some v => some v
            | none => n.content key) ∧
          n2.isComplete = ic.getD n.isComplete ∧
          n2.isProcessing = ip.getD n.isProcessing) := by
  intro nodes nid patch ic ip k n hk
  refine ⟨by simp [updateNodeContent], ?_⟩
  have hup : (updateNodeContent nodes nid patch ic ip)[k]? =
      some (if n.id = nid then updatedNode n patch ic ip else n) := by
    simp [updateNodeContent, updatedNode, List.getElem?_map, hk]
  by_cases hid : n.id = nid
  · rw [if_pos hid] at hup
    exact ⟨updatedNode n patch ic ip, hup, fun hne => absurd hid hne,
      rfl, rfl, rfl, rfl, rfl, rfl, rfl, fun _ => ⟨fun key => rfl, rfl, rfl⟩⟩
  · rw [if_neg hid] at hup
    exact ⟨_, hup, fun _ => rfl, rfl, rfl, rfl, rfl, rfl, rfl, rfl,
      fun heq => absurd heq hid⟩

theorem c10_updateNodeContent_frame_witness :
    (updateNodeContent [exNode, exNode2] "node-1" exPatch (some true) (some false)).length =
      ([exNode, exNode2] : List WorkflowNodeData).length ∧
    ∃ n2, (updateNodeContent [exNode, exNode2] "node-1" exPatch
        (some true) (some false))[0]? = some n2 ∧
      (exNode.id ≠ "node-1" → n2 = exNode) ∧
      n2.id = exNode.id ∧ n2.type = exNode.type ∧ n2.title = exNode.title ∧
      n2.x = exNode.x ∧ n2.y = exNode.y ∧ n2.width = exNode.width ∧
      n2.height = exNode.height ∧
      (exNode.id = "node-1" →
        (∀ key, n2.content key =
          match exPatch key with
          | some v => some v
          | none => exNode.content key) ∧
        n2.isComplete = (some true).getD exNode.isComplete ∧
        n2.isProcessing = (some false).getD exNode.isProcessing) :=
  c10_updateNodeContent_frame [exNode, exNode2] "node-1" exPatch
    (some true) (some false) 0 exNode rfl

end Canvas
